import Mathlib

/-!
# Verification of the download streaming endpoint

A shallow embedding of `functions/api/download.js` from the
CFPages-Speedtest-NextJS repository, together with proofs of the
specification's claims about it.

The endpoint validates an optional `size` query parameter, then streams
exactly that many fresh random bytes in chunks of at most `chunkSize`
bytes through a pull-driven `ReadableStream`, advertising the resolved
size in the `Content-Length` header.

Modelling conventions:
* JavaScript numbers that hold byte counts are modelled as `Nat`
  (they are non-negative integers well below 2^53 in every reachable
  state); the raw result of `parseInt` is modelled as `Option Int`
  (`none` encodes `NaN`).
* Byte buffers (`Uint8Array`) are modelled as `List Nat`.
* The Web Crypto call `crypto.getRandomValues` is an injected oracle
  `gen : Nat → Except String (List Nat)`: given a requested length it
  either fills a fresh buffer or throws.
* The `ReadableStream` producer is a state machine; the transport's
  repeated invocations of `pull` are iterated applications of the `pull`
  step function.
-/

namespace Download

/-- Source: `const DEFAULT_FILE_SIZE_BYTES = 10 * 1024 * 1024` (download.js line 12). -/
def DEFAULT_FILE_SIZE_BYTES : Nat := 10 * 1024 * 1024

/-- Source: `const MIN_FILE_SIZE_BYTES = 1 * 1024` (download.js line 13). -/
def MIN_FILE_SIZE_BYTES : Nat := 1 * 1024

/-- Source: `const MAX_FILE_SIZE_BYTES = 250 * 1024 * 1024` (download.js line 15). -/
def MAX_FILE_SIZE_BYTES : Nat := 250 * 1024 * 1024

/-- Source: `const chunkSize = 64 * 1024` (download.js line 51). -/
def chunkSize : Nat := 64 * 1024

/-- The longest prefix of decimal digits of a character list; this is how
far `parseInt(s, 10)` reads into the string. -/
def leadingDigits : List Char → List Char
  | [] => []
  | c :: cs => if c.isDigit then c :: leadingDigits cs else []

/-- Numeric value of a list of decimal digits (most significant first). -/
def digitsToNat (ds : List Char) : Nat :=
  ds.foldl (fun acc c => 10 * acc + (c.toNat - '0'.toNat)) 0

/-- Core of JavaScript `parseInt(s, 10)` on the character list of the
input: skip leading whitespace, read an optional sign, then the longest
run of decimal digits; `none` encodes `NaN` (no digits found). -/
def jsParseIntCore (cs : List Char) : Option Int :=
  let cs := cs.dropWhile Char.isWhitespace
  match cs with
  | '-' :: rest =>
    match leadingDigits rest with
    | [] => none
    | ds => some (-(digitsToNat ds : Int))
  | '+' :: rest =>
    match leadingDigits rest with
    | [] => none
    | ds => some (digitsToNat ds : Int)
  | _ =>
    match leadingDigits cs with
    | [] => none
    | ds => some (digitsToNat ds : Int)

/-- JavaScript `parseInt(s, 10)` as used on line 34 of download.js. -/
def jsParseInt (s : String) : Option Int :=
  jsParseIntCore s.data

/-- JavaScript truthiness of the string guard `if (requestedSize)`
(download.js line 33): a string is truthy iff it is non-empty. -/
def jsTruthy (s : String) : Bool :=
  !s.data.isEmpty

/-- The size-validation block of `onRequestGet` (download.js lines 17 and
33-42): start from the default, and overwrite it with the parsed value
only when the parameter is present (truthy), parses to a number, and the
number lies within `[MIN_FILE_SIZE_BYTES, MAX_FILE_SIZE_BYTES]`. -/
def resolveSize (requestedSize : Option String) : Nat :=
  match requestedSize with
  | none => DEFAULT_FILE_SIZE_BYTES
  | some s =>
    if jsTruthy s then
      match jsParseInt s with
      | none => DEFAULT_FILE_SIZE_BYTES
      | some parsedSize =>
        if (MIN_FILE_SIZE_BYTES : Int) ≤ parsedSize ∧
            parsedSize ≤ (MAX_FILE_SIZE_BYTES : Int) then
          parsedSize.toNat
        else
          DEFAULT_FILE_SIZE_BYTES
    else
      DEFAULT_FILE_SIZE_BYTES

/-- The observable parts of the `Response` built on lines 87-96 of
download.js: the status and the headers (CORS headers spread in from
lines 53-57). The body stream is modelled separately by the producer
state machine. -/
structure DownloadResponse where
  status : Nat
  contentType : String
  contentLength : Nat
  cacheControl : String
  pragmaHeader : String
  allowOrigin : String
  allowMethods : String
  allowHeaders : String
  deriving Repr, DecidableEq

/-- The response framing of `onRequestGet` (download.js lines 5-97) as a
function of the raw `size` query value: every request gets a `200`
response whose `Content-Length` is the resolved size. -/
def onRequestGet (requestedSize : Option String) : DownloadResponse :=
  let fileSize := resolveSize requestedSize
  { status := 200
    contentType := "application/octet-stream"
    contentLength := fileSize
    cacheControl := "no-store, no-cache, must-revalidate, max-age=0"
    pragmaHeader := "no-cache"
    allowOrigin := "*"
    allowMethods := "GET, OPTIONS"
    allowHeaders := "Content-Type" }

/-- The observable parts of the preflight `Response` (download.js lines
105-108): `null` body modelled as `Option`. -/
structure OptionsResponse where
  status : Nat
  body : Option String
  allowOrigin : String
  allowMethods : String
  allowHeaders : String
  deriving Repr, DecidableEq

/-- Handler `onRequestOptions` (download.js lines 99-109): a constant `204`
response with a `null` body and the CORS preflight headers. -/
def onRequestOptions : OptionsResponse :=
  { status := 204
    body := none
    allowOrigin := "*"
    allowMethods := "GET, POST, OPTIONS"
    allowHeaders := "Content-Type, Range" }

/-- Status of the `ReadableStream` producer (spec section 4.3):
`streaming` until `controller.close()` (→ `closed`) or
`controller.error(...)` (→ `errored`); both are terminal because the
Streams runtime never calls `pull` again afterwards. -/
inductive StreamStatus where
  | streaming
  | closed
  | errored
  deriving Repr, DecidableEq

/-- Observable state of one in-flight download stream: the closed-over
`bytesSent` counter (download.js line 46), the stream status, and the
list of chunks enqueued so far (in order). -/
structure ProducerState where
  bytesSent : Nat
  status : StreamStatus
  chunks : List (List Nat)
  deriving Repr, DecidableEq

/-- Initial producer state: `bytesSent = 0`, nothing enqueued. -/
def initState : ProducerState :=
  { bytesSent := 0, status := .streaming, chunks := [] }

/-- Function `generateRandomChunk` (download.js lines 24-31): allocate a buffer
of the given size and fill it from the injected random source; the
source may throw. -/
def generateRandomChunk (getRandomValues : Nat → Except String (List Nat))
    (size : Nat) : Except String (List Nat) :=
  getRandomValues size

/-- One invocation of `pull(controller)` (download.js lines 60-79).
`pull` is only ever invoked while the stream is live, so terminal states
are fixed points. In the live state: if `bytesSent >= fileSize` the
controller is closed; otherwise a chunk of
`min(chunkSize, fileSize - bytesSent)` bytes is generated and enqueued
and `bytesSent` advances by that amount, unless generation throws, in
which case `controller.error` is signalled and `bytesSent` is left
unchanged. -/
def pull (gen : Nat → Except String (List Nat)) (fileSize : Nat)
    (s : ProducerState) : ProducerState :=
  match s.status with
  | .streaming =>
    if fileSize ≤ s.bytesSent then
      { s with status := .closed }
    else
      let bytesRemaining := fileSize - s.bytesSent
      let currentChunkSize := min chunkSize bytesRemaining
      match generateRandomChunk gen currentChunkSize with
      | .ok chunk =>
        { bytesSent := s.bytesSent + currentChunkSize
          status := .streaming
          chunks := s.chunks ++ [chunk] }
      | .error _ => { s with status := .errored }
  | _ => s

/-- The producer state after the transport has invoked `pull` `k` times,
starting from `initState`. -/
def runPull (gen : Nat → Except String (List Nat)) (fileSize : Nat) :
    Nat → ProducerState
  | 0 => initState
  | k + 1 => pull gen fileSize (runPull gen fileSize k)

/-- Total number of bytes across a list of chunks. -/
def sumLens (cs : List (List Nat)) : Nat :=
  (cs.map List.length).sum

/-- Callback `cancel(reason)` (download.js lines 80-83): it only logs, so the
producer's observable state is untouched. -/
def cancelHandler (reason : String) (s : ProducerState) : ProducerState :=
  let _ := reason
  s

/-- External events delivered to the stream by the transport: a
readiness-driven `pull`, or a consumer cancellation with a reason. -/
inductive Event where
  | pullEv
  | cancelEv (reason : String)

/-- A stream together with the transport-side cancellation flag; per the
Streams contract the transport stops invoking `pull` once the consumer
has cancelled. -/
structure StreamState where
  ps : ProducerState
  cancelled : Bool
  deriving Repr, DecidableEq

/-- Transport semantics for one event: `pull` runs the producer's pull
step only while not cancelled; `cancel` runs the source's `cancel`
callback and marks the stream cancelled. -/
def stepEvent (gen : Nat → Except String (List Nat)) (fileSize : Nat)
    (s : StreamState) : Event → StreamState
  | .pullEv =>
    if s.cancelled then s
    else { s with ps := pull gen fileSize s.ps }
  | .cancelEv reason =>
    { ps := cancelHandler reason s.ps, cancelled := true }

/-- Run a trace of transport events from a given stream state. -/
def runEvents (gen : Nat → Except String (List Nat)) (fileSize : Nat) :
    StreamState → List Event → StreamState
  | s, [] => s
  | s, e :: es => runEvents gen fileSize (stepEvent gen fileSize s e) es

/-- A generator is `GoodGen gen fill` when it never throws and returns
exactly the oracle buffer `fill n`, which has length `n`: the behaviour
of `crypto.getRandomValues` on a fresh `Uint8Array(n)`. -/
def GoodGen (gen : Nat → Except String (List Nat))
    (fill : Nat → List Nat) : Prop :=
  ∀ n, gen n = .ok (fill n) ∧ (fill n).length = n

/-- A concrete well-behaved generator used to witness the theorems:
fills every buffer with zero bytes. -/
def fillZeros (n : Nat) : List Nat :=
  List.replicate n 0

/-- Oracle `fillZeros` packaged as a non-throwing generator. -/
def genZeros (n : Nat) : Except String (List Nat) :=
  .ok (fillZeros n)

/-- A concrete well-behaved generator with visibly non-constant output:
byte `i` of a fresh buffer is `i % 256`. -/
def fillRange (n : Nat) : List Nat :=
  (List.range n).map (fun i => i % 256)

/-- Oracle `fillRange` packaged as a non-throwing generator. -/
def genRange (n : Nat) : Except String (List Nat) :=
  .ok (fillRange n)

/-- A generator that always throws, modelling a failing random source. -/
def genFail (n : Nat) : Except String (List Nat) :=
  let _ := n
  .error "random source unavailable"

/-- The chunk list an oracle `fill` produces over the first `k`
emitting pull steps for a given total size: step `i` requests
`min chunkSize (fileSize - i * chunkSize)` bytes. -/
def expectedChunks (fill : Nat → List Nat) (fileSize k : Nat) :
    List (List Nat) :=
  (List.range k).map (fun i => fill (min chunkSize (fileSize - i * chunkSize)))

/-- Number of emitting pull steps needed for a given total size:
the ceiling of `fileSize / chunkSize`. -/
def numChunks (fileSize : Nat) : Nat :=
  (fileSize + chunkSize - 1) / chunkSize

theorem goodGen_zeros : GoodGen genZeros fillZeros := by
  intro n
  simp [genZeros, fillZeros]

theorem goodGen_range : GoodGen genRange fillRange := by
  intro n
  simp [genRange, fillRange]

theorem pull_terminal (gen : Nat → Except String (List Nat)) (fileSize : Nat)
    (s : ProducerState) (h : s.status ≠ .streaming) :
    pull gen fileSize s = s := by
  obtain ⟨b, st, ch⟩ := s
  cases st with
  | streaming => exact absurd rfl h
  | closed => rfl
  | errored => rfl

theorem pull_streaming_done (gen : Nat → Except String (List Nat))
    (fileSize : Nat) (s : ProducerState) (h : s.status = .streaming)
    (hge : fileSize ≤ s.bytesSent) :
    pull gen fileSize s = { s with status := .closed } := by
  obtain ⟨b, st, ch⟩ := s
  simp only at h
  subst h
  simp [pull, hge]

theorem pull_streaming_step (gen : Nat → Except String (List Nat))
    (fileSize : Nat) (s : ProducerState) (c : List Nat)
    (h : s.status = .streaming) (hlt : s.bytesSent < fileSize)
    (hgen : gen (min chunkSize (fileSize - s.bytesSent)) = .ok c) :
    pull gen fileSize s =
      { bytesSent := s.bytesSent + min chunkSize (fileSize - s.bytesSent)
        status := .streaming
        chunks := s.chunks ++ [c] } := by
  obtain ⟨b, st, ch⟩ := s
  simp only at h hlt hgen
  subst h
  simp only [pull, generateRandomChunk]
  rw [if_neg (by omega)]
  simp [hgen]

theorem pull_streaming_error (gen : Nat → Except String (List Nat))
    (fileSize : Nat) (s : ProducerState) (e : String)
    (h : s.status = .streaming) (hlt : s.bytesSent < fileSize)
    (hgen : gen (min chunkSize (fileSize - s.bytesSent)) = .error e) :
    pull gen fileSize s = { s with status := .errored } := by
  obtain ⟨b, st, ch⟩ := s
  simp only at h hlt hgen
  subst h
  simp only [pull, generateRandomChunk]
  rw [if_neg (by omega)]
  simp [hgen]

theorem pull_bytesSent_le (gen : Nat → Except String (List Nat))
    (fileSize : Nat) (s : ProducerState) (h : s.bytesSent ≤ fileSize) :
    (pull gen fileSize s).bytesSent ≤ fileSize := by
  by_cases hst : s.status = .streaming
  · by_cases hge : fileSize ≤ s.bytesSent
    · rw [pull_streaming_done gen fileSize s hst hge]
      exact h
    · have hlt : s.bytesSent < fileSize := by omega
      cases hgen : gen (min chunkSize (fileSize - s.bytesSent)) with
      | ok c =>
        rw [pull_streaming_step gen fileSize s c hst hlt hgen]
        simp
        omega
      | error e =>
        rw [pull_streaming_error gen fileSize s e hst hlt hgen]
        exact h
  · rw [pull_terminal gen fileSize s hst]
    exact h

theorem runPull_bytesSent_le (gen : Nat → Except String (List Nat))
    (fileSize : Nat) : ∀ k, (runPull gen fileSize k).bytesSent ≤ fileSize := by
  intro k
  induction k with
  | zero => simp [runPull, initState]
  | succ k ih => exact pull_bytesSent_le gen fileSize _ ih

theorem runPull_closed_bytesSent (gen : Nat → Except String (List Nat))
    (fileSize : Nat) :
    ∀ k, (runPull gen fileSize k).status = .closed →
      (runPull gen fileSize k).bytesSent = fileSize := by
  intro k
  induction k with
  | zero => intro h; simp [runPull, initState] at h
  | succ k ih =>
    intro h
    have hle := runPull_bytesSent_le gen fileSize k
    show (pull gen fileSize (runPull gen fileSize k)).bytesSent = fileSize
    set s := runPull gen fileSize k with hs
    by_cases hst : s.status = .streaming
    · by_cases hge : fileSize ≤ s.bytesSent
      · rw [pull_streaming_done gen fileSize s hst hge]
        show s.bytesSent = fileSize
        omega
      · have hlt : s.bytesSent < fileSize := by omega
        cases hgen : gen (min chunkSize (fileSize - s.bytesSent)) with
        | ok c =>
          rw [runPull] at h
          rw [← hs] at h
          rw [pull_streaming_step gen fileSize s c hst hlt hgen] at h
          simp at h
        | error e =>
          rw [runPull] at h
          rw [← hs] at h
          rw [pull_streaming_error gen fileSize s e hst hlt hgen] at h
          simp at h
    · rw [pull_terminal gen fileSize s hst]
      rw [runPull] at h
      rw [← hs] at h
      rw [pull_terminal gen fileSize s hst] at h
      exact ih h

theorem expectedChunks_succ (fill : Nat → List Nat) (fileSize k : Nat) :
    expectedChunks fill fileSize (k + 1) =
      expectedChunks fill fileSize k ++
        [fill (min chunkSize (fileSize - k * chunkSize))] := by
  simp [expectedChunks, List.range_succ]

theorem numChunks_spec (fileSize : Nat) (h : 0 < fileSize) :
    (numChunks fileSize - 1) * chunkSize < fileSize ∧
      fileSize ≤ numChunks fileSize * chunkSize ∧ 0 < numChunks fileSize := by
  have hcs : chunkSize = 65536 := rfl
  unfold numChunks
  rw [hcs]
  omega

theorem runPull_streaming_char (gen : Nat → Except String (List Nat))
    (fill : Nat → List Nat) (hg : GoodGen gen fill) (fileSize : Nat) :
    ∀ k, (k = 0 ∨ (k - 1) * chunkSize < fileSize) →
      runPull gen fileSize k =
        { bytesSent := min (k * chunkSize) fileSize
          status := .streaming
          chunks := expectedChunks fill fileSize k } := by
  intro k
  induction k with
  | zero =>
    intro _
    simp [runPull, initState, expectedChunks]
  | succ k ih =>
    intro hk
    have hklt : k * chunkSize < fileSize := by
      rcases hk with h0 | h
      · omega
      · simpa using h
    have hkle : (k - 1) * chunkSize ≤ k * chunkSize :=
      Nat.mul_le_mul_right _ (Nat.sub_le k 1)
    have hs := ih (Or.inr (lt_of_le_of_lt hkle hklt))
    show pull gen fileSize (runPull gen fileSize k) = _
    rw [hs]
    have hmin : min (k * chunkSize) fileSize = k * chunkSize :=
      Nat.min_eq_left (le_of_lt hklt)
    rw [hmin]
    have hc := (hg (min chunkSize (fileSize - k * chunkSize))).1
    rw [pull_streaming_step gen fileSize _ _ rfl hklt hc]
    have hby : k * chunkSize + min chunkSize (fileSize - k * chunkSize) =
        min ((k + 1) * chunkSize) fileSize := by
      rw [Nat.succ_mul]
      revert hklt
      generalize k * chunkSize = a
      intro hklt
      omega
    rw [expectedChunks_succ fill fileSize k, ← hby]

theorem runPull_closed_char (gen : Nat → Except String (List Nat))
    (fill : Nat → List Nat) (hg : GoodGen gen fill) (fileSize : Nat)
    (hpos : 0 < fileSize) :
    ∀ j, runPull gen fileSize (numChunks fileSize + 1 + j) =
      { bytesSent := fileSize
        status := .closed
        chunks := expectedChunks fill fileSize (numChunks fileSize) } := by
  obtain ⟨h1, h2, h3⟩ := numChunks_spec fileSize hpos
  intro j
  induction j with
  | zero =>
    show pull gen fileSize (runPull gen fileSize (numChunks fileSize)) = _
    rw [runPull_streaming_char gen fill hg fileSize (numChunks fileSize)
      (Or.inr h1)]
    have hmin : min (numChunks fileSize * chunkSize) fileSize = fileSize :=
      Nat.min_eq_right h2
    rw [hmin]
    rw [pull_streaming_done gen fileSize _ rfl (Nat.le_refl fileSize)]
  | succ j ih =>
    show pull gen fileSize (runPull gen fileSize (numChunks fileSize + 1 + j)) = _
    rw [ih]
    rw [pull_terminal gen fileSize
      { bytesSent := fileSize
        status := .closed
        chunks := expectedChunks fill fileSize (numChunks fileSize) }
      (by simp)]

theorem sumLens_append (l : List (List Nat)) (c : List Nat) :
    sumLens (l ++ [c]) = sumLens l + c.length := by
  simp [sumLens]

theorem sumLens_expected (fill : Nat → List Nat)
    (hf : ∀ n, (fill n).length = n) (fileSize : Nat) :
    ∀ k, sumLens (expectedChunks fill fileSize k) =
      min (k * chunkSize) fileSize := by
  intro k
  induction k with
  | zero =>
    simp [expectedChunks, sumLens]
  | succ k ih =>
    rw [expectedChunks_succ, sumLens_append, ih, hf, Nat.succ_mul]
    generalize k * chunkSize = a
    omega

theorem runPull_sumLens (gen : Nat → Except String (List Nat))
    (fill : Nat → List Nat) (hg : GoodGen gen fill) (fileSize : Nat) :
    ∀ k, sumLens (runPull gen fileSize k).chunks =
      (runPull gen fileSize k).bytesSent := by
  intro k
  induction k with
  | zero => simp [runPull, initState, sumLens]
  | succ k ih =>
    show sumLens (pull gen fileSize (runPull gen fileSize k)).chunks =
      (pull gen fileSize (runPull gen fileSize k)).bytesSent
    set s := runPull gen fileSize k with hs
    by_cases hst : s.status = .streaming
    · by_cases hge : fileSize ≤ s.bytesSent
      · rw [pull_streaming_done gen fileSize s hst hge]
        exact ih
      · have hlt : s.bytesSent < fileSize := by omega
        have hc := (hg (min chunkSize (fileSize - s.bytesSent))).1
        rw [pull_streaming_step gen fileSize s _ hst hlt hc]
        show sumLens (s.chunks ++ [fill (min chunkSize (fileSize - s.bytesSent))]) =
          s.bytesSent + min chunkSize (fileSize - s.bytesSent)
        rw [sumLens_append, ih, (hg _).2]
    · rw [pull_terminal gen fileSize s hst]
      exact ih

theorem runPull_chunks_shape (gen : Nat → Except String (List Nat))
    (fill : Nat → List Nat) (hg : GoodGen gen fill) (fileSize : Nat) :
    ∀ k c, c ∈ (runPull gen fileSize k).chunks →
      ∃ m, m ≤ chunkSize ∧ c = fill m ∧ c.length = m := by
  intro k
  induction k with
  | zero => intro c hc; simp [runPull, initState] at hc
  | succ k ih =>
    intro c hc
    rw [show runPull gen fileSize (k + 1) =
      pull gen fileSize (runPull gen fileSize k) from rfl] at hc
    set s := runPull gen fileSize k with hs
    by_cases hst : s.status = .streaming
    · by_cases hge : fileSize ≤ s.bytesSent
      · rw [pull_streaming_done gen fileSize s hst hge] at hc
        exact ih c hc
      · have hlt : s.bytesSent < fileSize := by omega
        have hcg := (hg (min chunkSize (fileSize - s.bytesSent))).1
        rw [pull_streaming_step gen fileSize s _ hst hlt hcg] at hc
        have hc2 : c ∈ s.chunks ∨ c = fill (min chunkSize (fileSize - s.bytesSent)) := by
          simpa using hc
        rcases hc2 with hmem | hceq
        · exact ih c hmem
        · subst hceq
          exact ⟨min chunkSize (fileSize - s.bytesSent), Nat.min_le_left _ _,
            rfl, (hg _).2⟩
    · rw [pull_terminal gen fileSize s hst] at hc
      exact ih c hc

theorem runPull_full_chunks (gen : Nat → Except String (List Nat))
    (fill : Nat → List Nat) (hg : GoodGen gen fill) (fileSize : Nat) :
    ∀ k,
      (∀ i, i + 1 < (runPull gen fileSize k).chunks.length →
        ((runPull gen fileSize k).chunks.getD i []).length = chunkSize) ∧
      ((runPull gen fileSize k).status = .streaming →
        (runPull gen fileSize k).bytesSent < fileSize →
        ∀ i, i < (runPull gen fileSize k).chunks.length →
          ((runPull gen fileSize k).chunks.getD i []).length = chunkSize) := by
  intro k
  induction k with
  | zero =>
    refine ⟨?_, ?_⟩
    · intro i hi; simp [runPull, initState] at hi
    · intro _ _ i hi; simp [runPull, initState] at hi
  | succ k ih =>
    obtain ⟨ih1, ih2⟩ := ih
    rw [show runPull gen fileSize (k + 1) =
      pull gen fileSize (runPull gen fileSize k) from rfl]
    set s := runPull gen fileSize k with hs
    by_cases hst : s.status = .streaming
    · by_cases hge : fileSize ≤ s.bytesSent
      · rw [pull_streaming_done gen fileSize s hst hge]
        refine ⟨fun i hi => ih1 i hi, ?_⟩
        intro hstream
        simp at hstream
      · have hlt : s.bytesSent < fileSize := by omega
        have hcg := (hg (min chunkSize (fileSize - s.bytesSent))).1
        rw [pull_streaming_step gen fileSize s _ hst hlt hcg]
        have hall := ih2 hst hlt
        have hnew : (fill (min chunkSize (fileSize - s.bytesSent))).length =
          min chunkSize (fileSize - s.bytesSent) := (hg _).2
        refine ⟨?_, ?_⟩
        · intro i hi
          have hlen : i < s.chunks.length := by
            simp at hi
            omega
          show ((s.chunks ++ [fill (min chunkSize (fileSize - s.bytesSent))]).getD
            i []).length = chunkSize
          rw [List.getD_append _ _ _ _ hlen]
          exact hall i hlen
        · intro hstream hbs i hi
          have hbs2 : s.bytesSent + min chunkSize (fileSize - s.bytesSent) <
            fileSize := hbs
          have hfull : min chunkSize (fileSize - s.bytesSent) = chunkSize := by
            omega
          have hi2 : i < s.chunks.length + 1 := by
            simpa using hi
          show ((s.chunks ++ [fill (min chunkSize (fileSize - s.bytesSent))]).getD
            i []).length = chunkSize
          by_cases hcase : i < s.chunks.length
          · rw [List.getD_append _ _ _ _ hcase]
            exact hall i hcase
          · have hieq : i = s.chunks.length := by omega
            subst hieq
            rw [List.getD_append_right _ _ _ _ (Nat.le_refl _), Nat.sub_self,
              List.getD_cons_zero, hnew, hfull]
    · rw [pull_terminal gen fileSize s hst]
      refine ⟨ih1, ?_⟩
      intro hstream
      exact absurd hstream hst

theorem jsParseIntCore_nil : jsParseIntCore [] = none := rfl

theorem jsTruthy_of_parse (s : String) (n : Int) (h : jsParseInt s = some n) :
    jsTruthy s = true := by
  unfold jsTruthy
  cases hd : s.data with
  | nil =>
    rw [jsParseInt, hd, jsParseIntCore_nil] at h
    exact Option.noConfusion h
  | cons a l => simp [hd]

theorem resolveSize_parse (s : String) (n : Int) (h : jsParseInt s = some n)
    (hlo : (MIN_FILE_SIZE_BYTES : Int) ≤ n)
    (hhi : n ≤ (MAX_FILE_SIZE_BYTES : Int)) :
    resolveSize (some s) = n.toNat := by
  have ht := jsTruthy_of_parse s n h
  simp [resolveSize, ht, h, hlo, hhi]

theorem streaming_cond (fileSize k : Nat) (hpos : 0 < fileSize)
    (hk : k ≤ numChunks fileSize) :
    k = 0 ∨ (k - 1) * chunkSize < fileSize := by
  obtain ⟨h1, h2, h3⟩ := numChunks_spec fileSize hpos
  rcases Nat.eq_zero_or_pos k with h0 | hp
  · exact Or.inl h0
  · right
    have hle : (k - 1) * chunkSize ≤ (numChunks fileSize - 1) * chunkSize :=
      Nat.mul_le_mul_right _ (by omega)
    omega

/-- C2: the size validator resolves an absent, unparsable, or
out-of-bounds `size` value to `DEFAULT_FILE_SIZE_BYTES` and an in-bounds
parsed value to itself; `MIN_FILE_SIZE_BYTES` (1024) and
`MAX_FILE_SIZE_BYTES` (262144000) resolve to themselves, `MAX + 1`
(262144001) falls back to the default, and no input value is ever
rejected (the response status is always 200). -/
theorem claim_C2 :
    (∀ raw : Option String,
      resolveSize raw =
        match raw with
        | none => DEFAULT_FILE_SIZE_BYTES
        | some s =>
          match jsParseInt s with
          | none => DEFAULT_FILE_SIZE_BYTES
          | some n =>
            if (MIN_FILE_SIZE_BYTES : Int) ≤ n ∧ n ≤ (MAX_FILE_SIZE_BYTES : Int)
            then n.toNat
            else DEFAULT_FILE_SIZE_BYTES) ∧
    resolveSize (some "1024") = MIN_FILE_SIZE_BYTES ∧
    resolveSize (some "262144000") = MAX_FILE_SIZE_BYTES ∧
    resolveSize (some "262144001") = DEFAULT_FILE_SIZE_BYTES ∧
    (∀ raw : Option String, (onRequestGet raw).status = 200) := by
  refine ⟨?_, by decide, by decide, by decide, fun raw => rfl⟩
  intro raw
  cases raw with
  | none => rfl
  | some s =>
    by_cases ht : jsTruthy s
    · simp only [resolveSize, ht, if_true]
    · have hfalse : jsTruthy s = false := by simpa using ht
      have hdata : s.data = [] := by
        unfold jsTruthy at hfalse
        cases hd : s.data with
        | nil => rfl
        | cons a l => rw [hd] at hfalse; simp at hfalse
      have hparse : jsParseInt s = none := by
        rw [jsParseInt, hdata, jsParseIntCore_nil]
      simp [resolveSize, hfalse, hparse]

/-- C9: every OPTIONS request to the download endpoint gets a `204 No
Content` response with an empty (`null`) body carrying the CORS
preflight headers `Access-Control-Allow-Origin`,
`Access-Control-Allow-Methods` and `Access-Control-Allow-Headers`. -/
theorem claim_C9 :
    onRequestOptions.status = 204 ∧
    onRequestOptions.body = none ∧
    onRequestOptions.allowOrigin = "*" ∧
    onRequestOptions.allowMethods = "GET, POST, OPTIONS" ∧
    onRequestOptions.allowHeaders = "Content-Type, Range" :=
  ⟨rfl, rfl, rfl, rfl, rfl⟩

/-- C10: a `size` value of digits followed by trailing text, such as
`1048576abc`, parses to the leading integer (here in bounds, so it is
used, and reflected in `Content-Length`); a present-but-empty value is
falsy, fails the truthiness guard before parsing, and resolves to the
default. -/
theorem claim_C10 :
    jsParseInt "1048576abc" = some 1048576 ∧
    resolveSize (some "1048576abc") = 1048576 ∧
    (onRequestGet (some "1048576abc")).contentLength = 1048576 ∧
    jsTruthy "" = false ∧
    resolveSize (some "") = DEFAULT_FILE_SIZE_BYTES :=
  ⟨by decide, by decide, by decide, rfl, rfl⟩

/-- C1: for every request whose `size` parameter parses to a value
within `[MIN_FILE_SIZE_BYTES, MAX_FILE_SIZE_BYTES]`, and any
well-behaved random source, the resolved size is written to the
`Content-Length` header, the stream eventually closes having enqueued
chunks totalling exactly that many bytes, and whenever the stream is
closed the total bytes enqueued over its lifetime equal the resolved
size — it never closes at any other byte count. -/
theorem claim_C1 (gen : Nat → Except String (List Nat))
    (fill : Nat → List Nat) (raw : String) (n : Int) (hg : GoodGen gen fill)
    (hparse : jsParseInt raw = some n)
    (hlo : (MIN_FILE_SIZE_BYTES : Int) ≤ n)
    (hhi : n ≤ (MAX_FILE_SIZE_BYTES : Int)) :
    (onRequestGet (some raw)).contentLength = resolveSize (some raw) ∧
    (∃ k, (runPull gen (resolveSize (some raw)) k).status = .closed ∧
      sumLens (runPull gen (resolveSize (some raw)) k).chunks =
        resolveSize (some raw)) ∧
    (∀ k, (runPull gen (resolveSize (some raw)) k).status = .closed →
      sumLens (runPull gen (resolveSize (some raw)) k).chunks =
        resolveSize (some raw)) := by
  have hres := resolveSize_parse raw n hparse hlo hhi
  set fileSize := resolveSize (some raw) with hfs
  have hpos : 0 < fileSize := by
    have h1 : (MIN_FILE_SIZE_BYTES : Int) = 1024 := rfl
    rw [h1] at hlo
    rw [hres]
    omega
  obtain ⟨hn1, hn2, hn3⟩ := numChunks_spec fileSize hpos
  have hrun := runPull_closed_char gen fill hg fileSize hpos 0
  rw [Nat.add_zero] at hrun
  refine ⟨rfl, ⟨numChunks fileSize + 1, ?_, ?_⟩, ?_⟩
  · rw [hrun]
  · rw [hrun]
    show sumLens (expectedChunks fill fileSize (numChunks fileSize)) = fileSize
    rw [sumLens_expected fill (fun m => (hg m).2) fileSize]
    exact Nat.min_eq_right hn2
  · intro k hk
    rw [runPull_sumLens gen fill hg fileSize k]
    exact runPull_closed_bytesSent gen fileSize k hk

theorem claim_C1_witness :
    ∃ k, (runPull genZeros (resolveSize (some "1024")) k).status = .closed ∧
      sumLens (runPull genZeros (resolveSize (some "1024")) k).chunks =
        resolveSize (some "1024") :=
  (claim_C1 genZeros fillZeros "1024" 1024 goodGen_zeros (by decide)
    (by decide) (by decide)).2.1

/-- C3: the stream cursor invariant: `bytesSent` starts at `0` and never
exceeds the resolved size at any observation point; every pull step that
enqueues a chunk advances `bytesSent` by exactly that chunk's length;
whenever the stream is closed `bytesSent` equals the resolved size; and
from a live state the next pull closes the stream exactly when
`bytesSent` already equals the resolved size. (`0 ≤ bytesSent` holds by
the `Nat` embedding: the counter starts at 0 and only ever grows.) -/
theorem claim_C3 (gen : Nat → Except String (List Nat))
    (fill : Nat → List Nat) (fileSize : Nat) (hg : GoodGen gen fill) :
    (runPull gen fileSize 0).bytesSent = 0 ∧
    (∀ k, (runPull gen fileSize k).bytesSent ≤ fileSize) ∧
    (∀ k c, (runPull gen fileSize (k + 1)).chunks =
        (runPull gen fileSize k).chunks ++ [c] →
      (runPull gen fileSize (k + 1)).bytesSent =
        (runPull gen fileSize k).bytesSent + c.length) ∧
    (∀ k, (runPull gen fileSize k).status = .closed →
      (runPull gen fileSize k).bytesSent = fileSize) ∧
    (∀ k, (runPull gen fileSize k).status = .streaming →
      ((runPull gen fileSize (k + 1)).status = .closed ↔
        (runPull gen fileSize k).bytesSent = fileSize)) := by
  refine ⟨rfl, runPull_bytesSent_le gen fileSize, ?_,
    runPull_closed_bytesSent gen fileSize, ?_⟩
  · intro k c hch
    rw [show runPull gen fileSize (k + 1) =
      pull gen fileSize (runPull gen fileSize k) from rfl] at hch ⊢
    set s := runPull gen fileSize k with hs
    by_cases hst : s.status = .streaming
    · by_cases hge : fileSize ≤ s.bytesSent
      · rw [pull_streaming_done gen fileSize s hst hge] at hch
        have := congrArg List.length hch
        simp at this
      · have hlt : s.bytesSent < fileSize := by omega
        have hcg := (hg (min chunkSize (fileSize - s.bytesSent))).1
        rw [pull_streaming_step gen fileSize s _ hst hlt hcg] at hch ⊢
        have hsing : [fill (min chunkSize (fileSize - s.bytesSent))] = [c] :=
          List.append_cancel_left hch
        have hceq : fill (min chunkSize (fileSize - s.bytesSent)) = c := by
          simpa using hsing
        show s.bytesSent + min chunkSize (fileSize - s.bytesSent) =
          s.bytesSent + c.length
        rw [← hceq, (hg _).2]
    · rw [pull_terminal gen fileSize s hst] at hch
      have := congrArg List.length hch
      simp at this
  · intro k hst
    rw [show runPull gen fileSize (k + 1) =
      pull gen fileSize (runPull gen fileSize k) from rfl]
    set s := runPull gen fileSize k with hs
    have hle := runPull_bytesSent_le gen fileSize k
    rw [← hs] at hle
    constructor
    · intro hcl
      by_cases hge : fileSize ≤ s.bytesSent
      · omega
      · have hlt : s.bytesSent < fileSize := by omega
        have hcg := (hg (min chunkSize (fileSize - s.bytesSent))).1
        rw [pull_streaming_step gen fileSize s _ hst hlt hcg] at hcl
        simp at hcl
    · intro hbs
      rw [pull_streaming_done gen fileSize s hst (le_of_eq hbs.symm)]

theorem claim_C3_witness :
    (runPull genZeros 2048 5).bytesSent ≤ 2048 :=
  (claim_C3 genZeros fillZeros 2048 goodGen_zeros).2.1 5

/-- C4: if the random source throws during a production step, the
producer signals the error to the controller: the state becomes
`errored` (not `closed`), while `bytesSent` and the enqueued chunks are
left untouched; moreover, for any generator whatsoever, the stream is
never closed with `bytesSent` below the resolved size. -/
theorem claim_C4 :
    (∀ (gen : Nat → Except String (List Nat)) (fileSize : Nat)
        (s : ProducerState) (e : String),
      s.status = .streaming → s.bytesSent < fileSize →
      gen (min chunkSize (fileSize - s.bytesSent)) = .error e →
      (pull gen fileSize s).status = .errored ∧
      (pull gen fileSize s).bytesSent = s.bytesSent ∧
      (pull gen fileSize s).chunks = s.chunks ∧
      (pull gen fileSize s).status ≠ .closed) ∧
    (∀ (gen : Nat → Except String (List Nat)) (fileSize k : Nat),
      (runPull gen fileSize k).status = .closed →
      (runPull gen fileSize k).bytesSent = fileSize) := by
  refine ⟨?_, fun gen fileSize k => runPull_closed_bytesSent gen fileSize k⟩
  intro gen fileSize s e hst hlt hgen
  rw [pull_streaming_error gen fileSize s e hst hlt hgen]
  exact ⟨rfl, rfl, rfl, by simp⟩

theorem claim_C4_witness :
    (pull genFail 2048 initState).status = .errored ∧
    (pull genFail 2048 initState).bytesSent = initState.bytesSent ∧
    (pull genFail 2048 initState).chunks = initState.chunks ∧
    (pull genFail 2048 initState).status ≠ .closed :=
  claim_C4.1 genFail 2048 initState "random source unavailable" rfl
    (by decide) rfl

/-- C5: with a well-behaved random source, any chunk enqueued by a pull
step from a live state has length exactly
`min(chunkSize, fileSize - bytesSent)` computed at that step; every
chunk ever enqueued is at most `chunkSize` (64 KiB) long; and every
chunk other than the last one enqueued so far has length exactly
`chunkSize`, so only the final chunk can be shorter. -/
theorem claim_C5 (gen : Nat → Except String (List Nat))
    (fill : Nat → List Nat) (fileSize : Nat) (hg : GoodGen gen fill) :
    (∀ (s : ProducerState) (c : List Nat), s.status = .streaming →
      s.bytesSent < fileSize →
      (pull gen fileSize s).chunks = s.chunks ++ [c] →
      c.length = min chunkSize (fileSize - s.bytesSent)) ∧
    (∀ k c, c ∈ (runPull gen fileSize k).chunks → c.length ≤ chunkSize) ∧
    (∀ k i, i + 1 < (runPull gen fileSize k).chunks.length →
      ((runPull gen fileSize k).chunks.getD i []).length = chunkSize) := by
  refine ⟨?_, ?_, ?_⟩
  · intro s c hst hlt hch
    have hcg := (hg (min chunkSize (fileSize - s.bytesSent))).1
    rw [pull_streaming_step gen fileSize s _ hst hlt hcg] at hch
    have hsing : [fill (min chunkSize (fileSize - s.bytesSent))] = [c] :=
      List.append_cancel_left hch
    have hceq : fill (min chunkSize (fileSize - s.bytesSent)) = c := by
      simpa using hsing
    rw [← hceq, (hg _).2]
  · intro k c hc
    obtain ⟨m, hm, _, hlen⟩ := runPull_chunks_shape gen fill hg fileSize k c hc
    omega
  · intro k i hi
    exact (runPull_full_chunks gen fill hg fileSize k).1 i hi

theorem claim_C5_witness :
    ((runPull genZeros 131072 2).chunks.getD 0 []).length = chunkSize :=
  (claim_C5 genZeros fillZeros 131072 goodGen_zeros).2.2 2 0 (by decide)

/-- C6: every chunk the stream emits is exactly the buffer the injected
random-fill oracle produced for the requested length — the code imposes
no pattern of its own on the bytes — and with a non-constant oracle the
emitted chunk is indeed not a constant-byte buffer (two of its bytes
differ), unlike the degenerate constant-byte lineage variant. -/
theorem claim_C6 :
    (∀ (gen : Nat → Except String (List Nat)) (fill : Nat → List Nat)
        (fileSize : Nat), GoodGen gen fill →
      ∀ k c, c ∈ (runPull gen fileSize k).chunks →
        ∃ m, c = fill m ∧ c.length = m) ∧
    (∃ c ∈ (runPull genRange 1024 1).chunks, ∃ a ∈ c, ∃ b ∈ c, a ≠ b) := by
  refine ⟨?_, ?_⟩
  · intro gen fill fileSize hg k c hc
    obtain ⟨m, _, hceq, hlen⟩ := runPull_chunks_shape gen fill hg fileSize k c hc
    exact ⟨m, hceq, hlen⟩
  · refine ⟨fillRange 1024, ?_, 0, ?_, 1, ?_, by decide⟩
    · rw [show (runPull genRange 1024 1).chunks = [fillRange 1024] from rfl]
      simp
    · exact List.mem_map.mpr ⟨0, List.mem_range.mpr (by omega), rfl⟩
    · exact List.mem_map.mpr ⟨1, List.mem_range.mpr (by omega), rfl⟩

theorem claim_C6_witness :
    ∃ m, fillRange 1024 = fillRange m ∧ (fillRange 1024).length = m :=
  claim_C6.1 genRange fillRange 1024 goodGen_range 1 (fillRange 1024)
    (by rw [show (runPull genRange 1024 1).chunks = [fillRange 1024] from rfl]
        simp)

/-- C7: with a well-behaved random source and an in-bounds resolved
size, production is finite: `numChunks fileSize` is the ceiling of
`fileSize / chunkSize`, the stream is in the `closed` state exactly
after more than `numChunks fileSize` pull invocations (the first
`numChunks` pulls each emit a chunk and the next one emits
end-of-stream), and the number of chunks enqueued after `k` pulls is
`min k (numChunks fileSize)` — a finite sequence for every run. -/
theorem claim_C7 (gen : Nat → Except String (List Nat))
    (fill : Nat → List Nat) (fileSize : Nat) (hg : GoodGen gen fill)
    (hlo : MIN_FILE_SIZE_BYTES ≤ fileSize)
    (hhi : fileSize ≤ MAX_FILE_SIZE_BYTES) :
    numChunks fileSize = (fileSize + chunkSize - 1) / chunkSize ∧
    (∀ k, (runPull gen fileSize k).status = .closed ↔
      numChunks fileSize < k) ∧
    (∀ k, (runPull gen fileSize k).chunks.length =
      min k (numChunks fileSize)) := by
  have hpos : 0 < fileSize := by
    have h1 : MIN_FILE_SIZE_BYTES = 1024 := rfl
    omega
  refine ⟨rfl, ?_, ?_⟩
  · intro k
    constructor
    · intro hcl
      by_contra hk
      push_neg at hk
      rw [runPull_streaming_char gen fill hg fileSize k
        (streaming_cond fileSize k hpos hk)] at hcl
      simp at hcl
    · intro hk
      obtain ⟨j, hj⟩ : ∃ j, k = numChunks fileSize + 1 + j :=
        ⟨k - (numChunks fileSize + 1), by omega⟩
      subst hj
      rw [runPull_closed_char gen fill hg fileSize hpos j]
  · intro k
    by_cases hk : k ≤ numChunks fileSize
    · rw [runPull_streaming_char gen fill hg fileSize k
        (streaming_cond fileSize k hpos hk)]
      show (expectedChunks fill fileSize k).length = min k (numChunks fileSize)
      simp [expectedChunks, Nat.min_eq_left hk]
    · push_neg at hk
      obtain ⟨j, hj⟩ : ∃ j, k = numChunks fileSize + 1 + j :=
        ⟨k - (numChunks fileSize + 1), by omega⟩
      subst hj
      rw [runPull_closed_char gen fill hg fileSize hpos j]
      show (expectedChunks fill fileSize (numChunks fileSize)).length =
        min (numChunks fileSize + 1 + j) (numChunks fileSize)
      simp [expectedChunks]
      omega

theorem claim_C7_witness :
    (runPull genZeros 1024 2).status = .closed ↔ numChunks 1024 < 2 :=
  (claim_C7 genZeros fillZeros 1024 goodGen_zeros (by decide)
    (by decide)).2.1 2

/-- C8: the `cancel` callback mutates no producer state (it only logs);
a cancel event leaves the producer state unchanged and marks the stream
cancelled; and from any cancelled stream state, no trace of further
transport events performs any production step or side effect — the
state, including `bytesSent` and the enqueued chunks, stays exactly as
it was when cancellation was observed. -/
theorem claim_C8 :
    (∀ (reason : String) (s : ProducerState), cancelHandler reason s = s) ∧
    (∀ (gen : Nat → Except String (List Nat)) (fileSize : Nat)
        (reason : String) (ss : StreamState),
      (stepEvent gen fileSize ss (.cancelEv reason)).ps = ss.ps ∧
      (stepEvent gen fileSize ss (.cancelEv reason)).cancelled = true) ∧
    (∀ (gen : Nat → Except String (List Nat)) (fileSize : Nat)
        (ss : StreamState) (evs : List Event), ss.cancelled = true →
      runEvents gen fileSize ss evs = ss) := by
  refine ⟨fun r s => rfl, fun gen fileSize r ss => ⟨rfl, rfl⟩, ?_⟩
  intro gen fileSize ss evs
  induction evs generalizing ss with
  | nil => intro _; rfl
  | cons e es ih =>
    intro h
    have hstep : stepEvent gen fileSize ss e = ss := by
      cases e with
      | pullEv => simp [stepEvent, h]
      | cancelEv r =>
        obtain ⟨ps, c⟩ := ss
        simp only at h
        subst h
        rfl
    rw [show runEvents gen fileSize ss (e :: es) =
      runEvents gen fileSize (stepEvent gen fileSize ss e) es from rfl]
    rw [hstep]
    exact ih ss h

theorem claim_C8_witness :
    runEvents genZeros 1024 ⟨initState, true⟩ [Event.pullEv, Event.pullEv] =
      ⟨initState, true⟩ :=
  claim_C8.2.2 genZeros 1024 ⟨initState, true⟩ [Event.pullEv, Event.pullEv] rfl

end Download
